import Mathlib

/-!
Shallow embedding of the `store` package (linestore): an append-only record
store over two byte files.

Files are modelled as lists of bytes (`List Nat`, each element a byte value).
The data file is a sequence of records `[tag:u8 = 0][len:u32 LE][payload]`;
the index file is a sequence of 16-byte entries `[ordinal:u64 LE][offset:u64 LE]`.
A `Store` holds both file contents plus the in-memory `lineCount` counter.

I/O never fails in the model (reads past end-of-file behave as in Go:
`Seek` beyond EOF succeeds, a subsequent read yields EOF / a short read).
`Close` is modelled separately with explicitly injected close errors.
-/

namespace LineStore

/-- Little-endian encoding of `n` into `w` bytes (low byte first); as in Go's
`binary.LittleEndian.PutUint32/PutUint64`, `n` is truncated to `w` bytes. -/
def leBytes : Nat → Nat → List Nat
  | 0, _ => []
  | w + 1, n => n % 256 :: leBytes w (n / 256)

/-- Little-endian decoding of a byte list, as in Go's
`binary.LittleEndian.Uint32/Uint64`. -/
def leVal (bs : List Nat) : Nat :=
  bs.foldr (fun b acc => b + 256 * acc) 0

/-- Errors surfaced by the store operations (payloads keep the data that the Go
error messages interpolate). -/
inductive Err where
  | invalidType (t line : Nat)
  | readTypeErr (line : Nat)
  | readLenErr (line : Nat)
  | invalidLength (len line : Nat)
  | readValueErr (line : Nat)
  | readIndexErr (line : Nat)
  | indexSizeMismatch (actual expected : Nat)
  | outOfRange (line total : Nat)
  | emptyStore
  deriving DecidableEq, Repr

/-- The `Store` struct: contents of the data file and the index file, plus the
`lineCount` counter. (The `sync.RWMutex` and the `os.File` handles have no
pure counterpart; file contents stand for the files.) -/
structure Store where
  dataFile : List Nat
  indexFile : List Nat
  lineCount : Nat
  deriving DecidableEq, Repr

/-- On-disk record for a payload: tag byte `0`, 4-byte LE length
(`uint32(len(value))`, so truncated mod 2^32), then the payload bytes. -/
def encodeRecord (v : List Nat) : List Nat :=
  0 :: leBytes 4 v.length ++ v

/-- On-disk index entry: 8-byte LE ordinal followed by 8-byte LE data offset. -/
def encodeIndexEntry (lineNum off : Nat) : List Nat :=
  leBytes 8 lineNum ++ leBytes 8 off

/-- The scan loop of `countLines`: read a tag byte (EOF terminates the loop),
reject a nonzero tag, read the 4 length bytes (any shortfall is an error), and
`Seek` past the payload. As in Go, seeking past end-of-file succeeds (`drop`
saturates), so an over-long declared length just ends the scan at the next
EOF with the truncated record counted. -/
def countLoop : List Nat → Nat → Except Err Nat
  | [], n => .ok n
  | t :: rest, n =>
    if t ≠ 0 then .error (.invalidType t n)
    else if rest.length < 4 then .error (.readLenErr n)
    else countLoop ((rest.drop 4).drop (leVal (rest.take 4))) (n + 1)
  termination_by bs _ => bs.length
  decreasing_by simp [List.length_drop]; omega

/-- `countLines`: count records by scanning the data file, then validate that
the index file size is exactly `lineCount * 16`. Returns the count that
becomes `lineCount`. -/
def countLines (data index : List Nat) : Except Err Nat :=
  match countLoop data 0 with
  | .error e => .error e
  | .ok n =>
    if index.length = n * 16 then .ok n
    else .error (.indexSizeMismatch index.length (n * 16))

/-- `NewStore`: open (or create, i.e. start from empty contents) the two
files, run `countLines`, and fail if it fails. -/
def NewStore (data index : List Nat) : Except Err Store :=
  match countLines data index with
  | .error e => .error e
  | .ok n => .ok ⟨data, index, n⟩

/-- `Set`: append `encodeRecord value` at the end of the data file (the seek
to `io.SeekEnd` yields the old size as `dataOffset`), append the index entry
`(lineCount, dataOffset)` to the index file, increment `lineCount`, and
return the assigned line number. I/O (write/sync) cannot fail in the model. -/
def Store.Set (s : Store) (value : List Nat) : Nat × Store :=
  let dataOffset := s.dataFile.length
  let lineNum := s.lineCount
  (lineNum,
    { dataFile := s.dataFile ++ encodeRecord value
      indexFile := s.indexFile ++ encodeIndexEntry lineNum dataOffset
      lineCount := s.lineCount + 1 })

/-- The record-decoding tail shared by `Get` and `ListAllReverse`: seek the
data file to `off`, read the tag byte, the 4 length bytes, check the length
against the 1 MiB ceiling (`1<<20`), and read exactly that many payload
bytes (`io.ReadFull` fails on a short read). -/
def readRecordAt (data : List Nat) (off line : Nat) : Except Err (List Nat) :=
  match data.drop off with
  | [] => .error (.readTypeErr line)
  | t :: rest =>
    if t ≠ 0 then .error (.invalidType t line)
    else if rest.length < 4 then .error (.readLenErr line)
    else
      let valLen := leVal (rest.take 4)
      if valLen > 2 ^ 20 then .error (.invalidLength valLen line)
      else if (rest.drop 4).length < valLen then .error (.readValueErr line)
      else .ok ((rest.drop 4).take valLen)

/-- The body of `Get` after the range check (also the loop body of
`ListAllReverse`): read the 16-byte index entry at offset `line * 16`
(`io.ReadFull`, failing if fewer than 16 bytes are there), take the data
offset from its second half, and decode the record there. -/
def Store.readLine (s : Store) (line : Nat) : Except Err (List Nat) :=
  let entry := (s.indexFile.drop (line * 16)).take 16
  if entry.length < 16 then .error (.readIndexErr line)
  else readRecordAt s.dataFile (leVal (entry.drop 8)) line

/-- `Get`: range-check the line number against `lineCount`, then look the
record up through the index. -/
def Store.Get (s : Store) (line : Nat) : Except Err (List Nat) :=
  if line ≥ s.lineCount then .error (.outOfRange line s.lineCount)
  else s.readLine line

/-- The forward scan loop of `List`: starting at the file head, decode
`lineCount` records sequentially, pairing each with its positional line
number. Unlike `countLoop` this reads the payloads (short read is an error)
and enforces the 1 MiB length ceiling. -/
def listLoop : List Nat → Nat → Nat → Except Err (List (Nat × List Nat))
  | _, 0, _ => .ok []
  | bytes, k + 1, lineNum =>
    match bytes with
    | [] => .error (.readTypeErr lineNum)
    | t :: rest =>
      if t ≠ 0 then .error (.invalidType t lineNum)
      else if rest.length < 4 then .error (.readLenErr lineNum)
      else
        let valLen := leVal (rest.take 4)
        if valLen > 2 ^ 20 then .error (.invalidLength valLen lineNum)
        else if (rest.drop 4).length < valLen then .error (.readValueErr lineNum)
        else
          match listLoop ((rest.drop 4).drop valLen) k (lineNum + 1) with
          | .error e => .error e
          | .ok tail => .ok ((lineNum, (rest.drop 4).take valLen) :: tail)

/-- `List`: all `(lineNum, value)` pairs in file order, line 0 first. (Named
`ListForward` here only because `List` would clash with Lean's `List`.) -/
def Store.ListForward (s : Store) : Except Err (List (Nat × List Nat)) :=
  listLoop s.dataFile s.lineCount 0

/-- The loop of `ListAllReverse`, by remaining count: processing lines
`k-1, k-2, …, 0`, each located via the index, each pair keeping its original
line number. -/
def listRevLoop (s : Store) : Nat → Except Err (List (Nat × List Nat))
  | 0 => .ok []
  | k + 1 =>
    match s.readLine k with
    | .error e => .error e
    | .ok v =>
      match listRevLoop s k with
      | .error e => .error e
      | .ok tail => .ok ((k, v) :: tail)

/-- `ListAllReverse`: all pairs from the last line down to line 0 (the empty
store yields the empty list before the loop). -/
def Store.ListAllReverse (s : Store) : Except Err (List (Nat × List Nat)) :=
  listRevLoop s s.lineCount

/-- `GetLastLine`: the line number of the last record; error on an empty
store. -/
def Store.GetLastLine (s : Store) : Except Err Nat :=
  if s.lineCount = 0 then .error .emptyStore else .ok (s.lineCount - 1)

/-- The rewrite loop of `Polish`: decode the next of the remaining `k`
records from the old data file (same checks as the read path), append the
re-encoded record `0 :: PutUint32 valLen ++ value` to the temp data file
`accD` (its write offset is the current temp size `accD.length`) and the
fresh index entry to the temp index file `accI`. -/
def polishLoop : List Nat → Nat → Nat → List Nat → List Nat →
    Except Err (List Nat × List Nat)
  | _, 0, _, accD, accI => .ok (accD, accI)
  | bytes, k + 1, line, accD, accI =>
    match bytes with
    | [] => .error (.readTypeErr line)
    | t :: rest =>
      if t ≠ 0 then .error (.invalidType t line)
      else if rest.length < 4 then .error (.readLenErr line)
      else
        let valLen := leVal (rest.take 4)
        if valLen > 2 ^ 20 then .error (.invalidLength valLen line)
        else if (rest.drop 4).length < valLen then .error (.readValueErr line)
        else
          let value := (rest.drop 4).take valLen
          polishLoop ((rest.drop 4).drop valLen) k (line + 1)
            (accD ++ 0 :: leBytes 4 valLen ++ value)
            (accI ++ encodeIndexEntry line accD.length)

/-- `Polish`: take a safety backup (a pure copy, no effect on the store),
rewrite both files through `polishLoop`, atomically rename the temp files
over the originals, and set `lineCount` to the number of rewritten records
(`newLine`, which equals the old `lineCount` when the loop completes). -/
def Store.Polish (s : Store) : Except Err Store :=
  match polishLoop s.dataFile s.lineCount 0 [] [] with
  | .error e => .error e
  | .ok (d, ix) => .ok ⟨d, ix, s.lineCount⟩

/-- `backupTo`: copy the current data file byte-for-byte to the destination
path and the current index file to the destination path + ".idx"; the
`polished` flag is accepted but never consulted. The result is the pair of
file contents written at the two destination paths. -/
def Store.backupTo (s : Store) (_polished : Bool) : List Nat × List Nat :=
  (s.dataFile, s.indexFile)

/-- `Backup`: take the read lock and delegate to `backupTo`. -/
def Store.Backup (s : Store) (polished : Bool) : List Nat × List Nat :=
  s.backupTo polished

/-- `Close`, with the fallibility of the two `os.File.Close` calls made
explicit (`dataErr` / `indexErr` are the errors those calls would return,
`none` for success). Result: whether the index-file close was attempted, and
the error returned to the caller. The code closes the index file on both
paths; when the data-file close fails its error is returned and the
index-file close result is discarded. -/
def closeStore (dataErr indexErr : Option String) : Bool × Option String :=
  match dataErr with
  | some e => (true, some ("failed to close data file: " ++ e))
  | none =>
    match indexErr with
    | some e => (true, some ("failed to close index file: " ++ e))
    | none => (true, none)

/-- A store just created at a fresh path: both files empty. -/
def store0 : Store := ⟨[], [], 0⟩

/-- Fold `Set` over a list of payloads, keeping only the final store. -/
def appendAll (s : Store) (vs : List (List Nat)) : Store :=
  vs.foldl (fun s v => (s.Set v).2) s

/-- Data-file contents after appending the payloads `vs` to empty files. -/
def encodeAll (vs : List (List Nat)) : List Nat :=
  (vs.map encodeRecord).flatten

/-- Index-file contents for records `vs` starting at line `line` and data
offset `off`. -/
def indexFrom (line off : Nat) : List (List Nat) → List Nat
  | [] => []
  | v :: vs => encodeIndexEntry line off ++ indexFrom (line + 1) (off + (encodeRecord v).length) vs

/-- The canonical store holding exactly the payloads `vs`: the state reached
by appending `vs`, in order, to a store opened on empty files. -/
def mkStore (vs : List (List Nat)) : Store :=
  ⟨encodeAll vs, indexFrom 0 0 vs, vs.length⟩

/-- A payload one byte over the 1 MiB read-side ceiling. -/
def bigPayload : List Nat := List.replicate (2 ^ 20 + 1) 0

theorem bigPayload_length : bigPayload.length = 2 ^ 20 + 1 := by
  unfold bigPayload
  exact List.length_replicate _ _

/-! ### Codec lemmas -/

theorem leBytes_length (w n : Nat) : (leBytes w n).length = w := by
  induction w generalizing n with
  | zero => rfl
  | succ w ih => simp [leBytes, ih]

theorem leVal_leBytes (w n : Nat) : leVal (leBytes w n) = n % 256 ^ w := by
  induction w generalizing n with
  | zero => simp [leBytes, leVal, Nat.mod_one]
  | succ w ih =>
    have h256 : (256 : Nat) ^ (w + 1) = 256 * 256 ^ w := by ring
    simp only [leBytes, leVal, List.foldr_cons]
    rw [h256, Nat.mod_mul]
    have : leVal (leBytes w (n / 256)) = n / 256 % 256 ^ w := ih (n / 256)
    simp only [leVal] at this
    omega

theorem leVal_leBytes_of_lt {w n : Nat} (h : n < 256 ^ w) : leVal (leBytes w n) = n := by
  rw [leVal_leBytes, Nat.mod_eq_of_lt h]

theorem leVal_leBytes4 {n : Nat} (h : n < 2 ^ 32) : leVal (leBytes 4 n) = n :=
  leVal_leBytes_of_lt (by norm_num at h ⊢; omega)

theorem leVal_leBytes8 {n : Nat} (h : n < 2 ^ 64) : leVal (leBytes 8 n) = n :=
  leVal_leBytes_of_lt (by norm_num at h ⊢; omega)

theorem encodeRecord_def (v : List Nat) :
    encodeRecord v = 0 :: (leBytes 4 v.length ++ v) := rfl

theorem encodeRecord_length (v : List Nat) : (encodeRecord v).length = 5 + v.length := by
  simp [encodeRecord, leBytes_length]
  omega

theorem encodeIndexEntry_length (l o : Nat) : (encodeIndexEntry l o).length = 16 := by
  simp [encodeIndexEntry, leBytes_length]

theorem encodeAll_nil : encodeAll [] = [] := rfl

theorem encodeAll_cons (v : List Nat) (vs : List (List Nat)) :
    encodeAll (v :: vs) = encodeRecord v ++ encodeAll vs := by
  simp [encodeAll]

theorem encodeAll_append (us vs : List (List Nat)) :
    encodeAll (us ++ vs) = encodeAll us ++ encodeAll vs := by
  simp [encodeAll]

theorem encodeAll_take_length_le (vs : List (List Nat)) (k : Nat) :
    (encodeAll (vs.take k)).length ≤ (encodeAll vs).length := by
  conv_rhs => rw [← List.take_append_drop k vs]
  rw [encodeAll_append]
  simp

theorem indexFrom_length (l o : Nat) (vs : List (List Nat)) :
    (indexFrom l o vs).length = 16 * vs.length := by
  induction vs generalizing l o with
  | nil => rfl
  | cons v vs ih =>
    simp [indexFrom, encodeIndexEntry_length, ih]
    omega

theorem indexFrom_append (l o : Nat) (us vs : List (List Nat)) :
    indexFrom l o (us ++ vs)
      = indexFrom l o us ++ indexFrom (l + us.length) (o + (encodeAll us).length) vs := by
  induction us generalizing l o with
  | nil => simp [indexFrom, encodeAll_nil]
  | cons u us ih =>
    have h1 : l + 1 + us.length = l + (u :: us).length := by simp; omega
    have h2 : o + (encodeRecord u).length + (encodeAll us).length
        = o + (encodeAll (u :: us)).length := by
      simp [encodeAll_cons]
      omega
    calc indexFrom l o ((u :: us) ++ vs)
        = encodeIndexEntry l o
            ++ indexFrom (l + 1) (o + (encodeRecord u).length) (us ++ vs) := rfl
      _ = encodeIndexEntry l o
            ++ (indexFrom (l + 1) (o + (encodeRecord u).length) us
              ++ indexFrom (l + 1 + us.length)
                  (o + (encodeRecord u).length + (encodeAll us).length) vs) := by rw [ih]
      _ = indexFrom l o (u :: us)
            ++ indexFrom (l + (u :: us).length) (o + (encodeAll (u :: us)).length) vs := by
          rw [h1, h2]
          simp [indexFrom, List.append_assoc]

/-! ### Scan-loop lemmas -/

theorem countLoop_nil (n : Nat) : countLoop [] n = .ok n := by
  simp [countLoop]

theorem countLoop_cons (t : Nat) (rest : List Nat) (n : Nat) :
    countLoop (t :: rest) n =
      if t ≠ 0 then .error (.invalidType t n)
      else if rest.length < 4 then .error (.readLenErr n)
      else countLoop ((rest.drop 4).drop (leVal (rest.take 4))) (n + 1) := by
  rw [countLoop]

theorem countLoop_record (v tail : List Nat) (n : Nat) (hv : v.length < 2 ^ 32) :
    countLoop (encodeRecord v ++ tail) n = countLoop tail (n + 1) := by
  rw [encodeRecord_def, List.cons_append, List.append_assoc, countLoop_cons]
  rw [List.take_left' (leBytes_length 4 v.length), List.drop_left' (leBytes_length 4 v.length)]
  simp [leBytes_length, leVal_leBytes4 hv, List.drop_left]

theorem countLoop_encodeAll (vs : List (List Nat)) (tail : List Nat) (n : Nat)
    (h : ∀ v ∈ vs, v.length < 2 ^ 32) :
    countLoop (encodeAll vs ++ tail) n = countLoop tail (n + vs.length) := by
  induction vs generalizing n with
  | nil => simp [encodeAll_nil]
  | cons v vs ih =>
    rw [encodeAll_cons, List.append_assoc,
      countLoop_record v _ n (h v (by simp)),
      ih _ (fun u hu => h u (by simp [hu]))]
    rw [show n + 1 + vs.length = n + (v :: vs).length from by simp; omega]

theorem countLoop_clean (vs : List (List Nat)) (h : ∀ v ∈ vs, v.length < 2 ^ 32) :
    countLoop (encodeAll vs) 0 = .ok vs.length := by
  have := countLoop_encodeAll vs [] 0 h
  simpa [countLoop_nil] using this

/-! ### Record read lemmas -/

theorem readRecordAt_encode (front v tail : List Nat) (line : Nat) (hv : v.length ≤ 2 ^ 20) :
    readRecordAt (front ++ (encodeRecord v ++ tail)) front.length line = .ok v := by
  have h32 : v.length < 2 ^ 32 := lt_of_le_of_lt hv (by norm_num)
  rw [readRecordAt, List.drop_left front (encodeRecord v ++ tail), encodeRecord_def,
    List.cons_append, List.append_assoc]
  simp only
  rw [List.take_left' (leBytes_length 4 v.length), List.drop_left' (leBytes_length 4 v.length),
    leVal_leBytes4 h32]
  simp [leBytes_length, Nat.not_lt.mpr hv, List.take_left]
  norm_num at hv ⊢
  omega

theorem readRecordAt_encode_big (front v tail : List Nat) (line : Nat)
    (hbig : 2 ^ 20 < v.length) (hfit : v.length < 2 ^ 32) :
    readRecordAt (front ++ (encodeRecord v ++ tail)) front.length line
      = .error (.invalidLength v.length line) := by
  rw [readRecordAt, List.drop_left front (encodeRecord v ++ tail), encodeRecord_def,
    List.cons_append, List.append_assoc]
  simp only
  rw [List.take_left' (leBytes_length 4 v.length), leVal_leBytes4 hfit]
  simp [leBytes_length, hbig]
  norm_num at hbig ⊢
  omega

/-! ### Append path: `Set`, `appendAll`, canonical stores -/

theorem store0_eq : store0 = mkStore [] := rfl

theorem set_mkStore (us : List (List Nat)) (v : List Nat) :
    (mkStore us).Set v = (us.length, mkStore (us ++ [v])) := by
  simp [Store.Set, mkStore, Prod.mk.injEq, Store.mk.injEq, encodeAll_append,
    encodeAll_cons, encodeAll_nil, indexFrom_append, indexFrom]

theorem appendAll_mkStore (us vs : List (List Nat)) :
    appendAll (mkStore us) vs = mkStore (us ++ vs) := by
  induction vs generalizing us with
  | nil => simp [appendAll]
  | cons v vs ih =>
    have : appendAll (mkStore us) (v :: vs) = appendAll ((mkStore us).Set v).2 vs := rfl
    rw [this, set_mkStore]
    simpa using ih (us ++ [v])

theorem appendAll_store0 (vs : List (List Nat)) : appendAll store0 vs = mkStore vs := by
  rw [store0_eq, appendAll_mkStore]
  simp

/-! ### Index lookup on canonical stores -/

theorem indexFrom_lookup (vs : List (List Nat)) (l o k : Nat) (hk : k < vs.length) :
    ((indexFrom l o vs).drop (16 * k)).take 16
      = encodeIndexEntry (l + k) (o + (encodeAll (vs.take k)).length) := by
  induction k generalizing vs l o with
  | zero =>
    cases vs with
    | nil => simp at hk
    | cons v vs =>
      simp only [indexFrom, Nat.mul_zero, List.drop_zero, List.take_zero, encodeAll_nil,
        List.length_nil, Nat.add_zero]
      rw [List.take_left' (encodeIndexEntry_length l o)]
  | succ k ih =>
    cases vs with
    | nil => simp at hk
    | cons v vs =>
      have hk' : k < vs.length := by simpa using hk
      have hdrop : (indexFrom l o (v :: vs)).drop (16 * (k + 1))
          = (indexFrom (l + 1) (o + (encodeRecord v).length) vs).drop (16 * k) := by
        rw [show 16 * (k + 1) = 16 + 16 * k from by omega, indexFrom,
          ← List.drop_drop, List.drop_left' (encodeIndexEntry_length l o)]
      rw [hdrop, ih _ _ _ hk']
      congr 1
      · omega
      · simp [List.take_succ_cons, encodeAll_cons]
        omega

theorem encodeAll_decomp (vs : List (List Nat)) (k : Nat) (hk : k < vs.length) :
    encodeAll vs = encodeAll (vs.take k)
      ++ (encodeRecord vs[k] ++ encodeAll (vs.drop (k + 1))) := by
  conv_lhs => rw [← List.take_append_drop k vs]
  rw [encodeAll_append, List.drop_eq_getElem_cons hk, encodeAll_cons]

/-! ### `readLine` / `Get` on canonical stores -/

theorem readLine_mkStore_eq (vs : List (List Nat)) (k : Nat) (hk : k < vs.length)
    (hsize : (encodeAll vs).length < 2 ^ 64) :
    (mkStore vs).readLine k
      = readRecordAt (encodeAll vs) (encodeAll (vs.take k)).length k := by
  have hoff : (encodeAll (vs.take k)).length < 2 ^ 64 :=
    lt_of_le_of_lt (encodeAll_take_length_le vs k) hsize
  unfold Store.readLine mkStore
  simp only
  rw [Nat.mul_comm k 16, indexFrom_lookup vs 0 0 k hk, encodeIndexEntry_length,
    if_neg (by omega)]
  rw [encodeIndexEntry, List.drop_left' (leBytes_length 8 (0 + k)),
    leVal_leBytes8 (by omega)]
  norm_num

theorem readLine_mkStore (vs : List (List Nat)) (k : Nat) (hk : k < vs.length)
    (hv : vs[k].length ≤ 2 ^ 20) (hsize : (encodeAll vs).length < 2 ^ 64) :
    (mkStore vs).readLine k = .ok vs[k] := by
  rw [readLine_mkStore_eq vs k hk hsize, encodeAll_decomp vs k hk]
  exact readRecordAt_encode _ _ _ _ hv

theorem readLine_mkStore_big (vs : List (List Nat)) (k : Nat) (hk : k < vs.length)
    (hbig : 2 ^ 20 < vs[k].length) (hfit : vs[k].length < 2 ^ 32)
    (hsize : (encodeAll vs).length < 2 ^ 64) :
    (mkStore vs).readLine k = .error (.invalidLength vs[k].length k) := by
  rw [readLine_mkStore_eq vs k hk hsize, encodeAll_decomp vs k hk]
  exact readRecordAt_encode_big _ _ _ _ hbig hfit

theorem get_mkStore (vs : List (List Nat)) (k : Nat) (hk : k < vs.length)
    (hv : vs[k].length ≤ 2 ^ 20) (hsize : (encodeAll vs).length < 2 ^ 64) :
    (mkStore vs).Get k = .ok vs[k] := by
  rw [Store.Get, if_neg (by simp [mkStore]; omega)]
  exact readLine_mkStore vs k hk hv hsize

theorem get_mkStore_big (vs : List (List Nat)) (k : Nat) (hk : k < vs.length)
    (hbig : 2 ^ 20 < vs[k].length) (hfit : vs[k].length < 2 ^ 32)
    (hsize : (encodeAll vs).length < 2 ^ 64) :
    (mkStore vs).Get k = .error (.invalidLength vs[k].length k) := by
  rw [Store.Get, if_neg (by simp [mkStore]; omega)]
  exact readLine_mkStore_big vs k hk hbig hfit hsize

/-! ### Opening canonical stores -/

theorem newStore_mkStore (vs : List (List Nat)) (h32 : ∀ u ∈ vs, u.length < 2 ^ 32) :
    NewStore (mkStore vs).dataFile (mkStore vs).indexFile = .ok (mkStore vs) := by
  unfold NewStore countLines
  rw [show (mkStore vs).dataFile = encodeAll vs from rfl, countLoop_clean vs h32]
  simp [mkStore, indexFrom_length, Nat.mul_comm]

/-! ### `Get` straight after `Set` on an arbitrary store -/

theorem get_after_set_eq (s : Store) (v : List Nat)
    (h16 : s.indexFile.length = s.lineCount * 16)
    (h64 : s.dataFile.length < 2 ^ 64) :
    ((s.Set v).2).Get (s.Set v).1
      = readRecordAt (s.dataFile ++ (encodeRecord v ++ [])) s.dataFile.length s.lineCount := by
  unfold Store.Set Store.Get Store.readLine
  simp only
  rw [if_neg (by omega), List.drop_left' h16,
    List.take_of_length_le (le_of_eq (encodeIndexEntry_length _ _)),
    encodeIndexEntry_length, if_neg (by omega)]
  rw [encodeIndexEntry, List.drop_left' (leBytes_length 8 s.lineCount),
    leVal_leBytes8 h64]
  rw [List.append_nil]

theorem get_after_set (s : Store) (v : List Nat)
    (h16 : s.indexFile.length = s.lineCount * 16)
    (h64 : s.dataFile.length < 2 ^ 64)
    (hv : v.length ≤ 2 ^ 20) :
    ((s.Set v).2).Get (s.Set v).1 = .ok v := by
  rw [get_after_set_eq s v h16 h64]
  exact readRecordAt_encode _ _ _ _ hv

theorem get_after_set_big (s : Store) (v : List Nat)
    (h16 : s.indexFile.length = s.lineCount * 16)
    (h64 : s.dataFile.length < 2 ^ 64)
    (hbig : 2 ^ 20 < v.length) (hfit : v.length < 2 ^ 32) :
    ((s.Set v).2).Get (s.Set v).1 = .error (.invalidLength v.length s.lineCount) := by
  rw [get_after_set_eq s v h16 h64]
  exact readRecordAt_encode_big _ _ _ _ hbig hfit

/-! ### Forward enumeration lemmas -/

theorem listLoop_record (v bytes : List Nat) (k n : Nat) (hv : v.length ≤ 2 ^ 20) :
    listLoop (encodeRecord v ++ bytes) (k + 1) n
      = match listLoop bytes k (n + 1) with
        | .error e => .error e
        | .ok t => .ok ((n, v) :: t) := by
  have h32 : v.length < 2 ^ 32 := lt_of_le_of_lt hv (by norm_num)
  rw [encodeRecord_def, List.cons_append, List.append_assoc, listLoop]
  rw [List.take_left' (leBytes_length 4 v.length), List.drop_left' (leBytes_length 4 v.length),
    leVal_leBytes4 h32]
  simp [leBytes_length, Nat.not_lt.mpr hv, List.take_left, List.drop_left]
  norm_num at hv ⊢
  omega

theorem listLoop_big (v bytes : List Nat) (k n : Nat)
    (hbig : 2 ^ 20 < v.length) (hfit : v.length < 2 ^ 32) :
    listLoop (encodeRecord v ++ bytes) (k + 1) n = .error (.invalidLength v.length n) := by
  rw [encodeRecord_def, List.cons_append, List.append_assoc, listLoop]
  rw [List.take_left' (leBytes_length 4 v.length), leVal_leBytes4 hfit]
  simp [leBytes_length, hbig]
  norm_num at hbig ⊢
  omega

theorem listLoop_encodeAll (vs : List (List Nat)) (tail : List Nat) (m n : Nat)
    (h : ∀ v ∈ vs, v.length ≤ 2 ^ 20) :
    listLoop (encodeAll vs ++ tail) (vs.length + m) n
      = match listLoop tail m (n + vs.length) with
        | .error e => .error e
        | .ok t => .ok (List.enumFrom n vs ++ t) := by
  induction vs generalizing n with
  | nil =>
    cases hres : listLoop tail m (n + 0) <;>
      simp_all [encodeAll_nil, List.enumFrom]
  | cons v vs ih =>
    rw [encodeAll_cons, List.append_assoc,
      show (v :: vs).length + m = (vs.length + m) + 1 from by simp; omega,
      listLoop_record v _ _ n (h v (by simp)),
      ih _ (fun u hu => h u (by simp [hu]))]
    rw [show n + 1 + vs.length = n + (v :: vs).length from by simp; omega]
    cases hres : listLoop tail m (n + (v :: vs).length) <;> simp [List.enumFrom]

theorem listForward_mkStore (vs : List (List Nat)) (h : ∀ v ∈ vs, v.length ≤ 2 ^ 20) :
    (mkStore vs).ListForward = .ok vs.enum := by
  have step := listLoop_encodeAll vs [] 0 0 h
  have hnil : listLoop [] 0 (0 + vs.length) = .ok [] := rfl
  rw [hnil] at step
  unfold Store.ListForward mkStore
  simp only
  simpa [List.enum_eq_enumFrom] using step

theorem listForward_mkStore_big (vs : List (List Nat)) (vbig : List Nat)
    (hvs : ∀ u ∈ vs, u.length ≤ 2 ^ 20)
    (hbig : 2 ^ 20 < vbig.length) (hfit : vbig.length < 2 ^ 32) :
    (mkStore (vs ++ [vbig])).ListForward = .error (.invalidLength vbig.length vs.length) := by
  have step := listLoop_encodeAll vs (encodeRecord vbig) 1 0 hvs
  have hone : listLoop (encodeRecord vbig) 1 (0 + vs.length)
      = .error (.invalidLength vbig.length vs.length) := by
    have := listLoop_big vbig [] 0 (0 + vs.length) hbig hfit
    simpa using this
  rw [hone] at step
  unfold Store.ListForward mkStore
  simp only
  rw [encodeAll_append, encodeAll_cons, encodeAll_nil, List.append_nil]
  simpa using step

/-! ### Reverse enumeration lemmas -/

theorem enum_take_succ (vs : List (List Nat)) (k : Nat) (hk : k < vs.length) :
    (vs.take (k + 1)).enum = (vs.take k).enum ++ [(k, vs[k])] := by
  rw [List.take_succ, List.getElem?_eq_getElem hk]
  rw [List.enum_append]
  simp [Nat.min_eq_left (Nat.le_of_lt hk)]

theorem listRevLoop_mkStore (vs : List (List Nat))
    (hvs : ∀ u ∈ vs, u.length ≤ 2 ^ 20) (hsize : (encodeAll vs).length < 2 ^ 64)
    (k : Nat) (hk : k ≤ vs.length) :
    listRevLoop (mkStore vs) k = .ok ((vs.take k).enum.reverse) := by
  induction k with
  | zero => simp [listRevLoop]
  | succ k ih =>
    have hk' : k < vs.length := by omega
    rw [listRevLoop, readLine_mkStore vs k hk' (hvs _ (vs.getElem_mem hk')) hsize,
      ih (by omega)]
    simp only
    rw [enum_take_succ vs k hk']
    simp

theorem listAllReverse_mkStore (vs : List (List Nat))
    (hvs : ∀ u ∈ vs, u.length ≤ 2 ^ 20) (hsize : (encodeAll vs).length < 2 ^ 64) :
    (mkStore vs).ListAllReverse = .ok vs.enum.reverse := by
  unfold Store.ListAllReverse
  have := listRevLoop_mkStore vs hvs hsize vs.length le_rfl
  simpa [mkStore, List.take_length] using this

/-! ### Compaction lemmas -/

theorem polishLoop_record (v bytes : List Nat) (k line : Nat) (accD accI : List Nat)
    (hv : v.length ≤ 2 ^ 20) :
    polishLoop (encodeRecord v ++ bytes) (k + 1) line accD accI
      = polishLoop bytes k (line + 1) (accD ++ encodeRecord v)
          (accI ++ encodeIndexEntry line accD.length) := by
  have h32 : v.length < 2 ^ 32 := lt_of_le_of_lt hv (by norm_num)
  rw [encodeRecord_def, List.cons_append, List.append_assoc, polishLoop]
  rw [List.take_left' (leBytes_length 4 v.length), List.drop_left' (leBytes_length 4 v.length),
    leVal_leBytes4 h32]
  simp [leBytes_length, Nat.not_lt.mpr hv, List.take_left, List.drop_left, List.append_assoc]
  all_goals norm_num at hv ⊢
  all_goals omega

theorem polishLoop_big (v bytes : List Nat) (k line : Nat) (accD accI : List Nat)
    (hbig : 2 ^ 20 < v.length) (hfit : v.length < 2 ^ 32) :
    polishLoop (encodeRecord v ++ bytes) (k + 1) line accD accI
      = .error (.invalidLength v.length line) := by
  rw [encodeRecord_def, List.cons_append, List.append_assoc, polishLoop]
  rw [List.take_left' (leBytes_length 4 v.length), leVal_leBytes4 hfit]
  simp [leBytes_length, hbig]
  all_goals norm_num at hbig ⊢
  all_goals omega

theorem polishLoop_encodeAll (vs : List (List Nat)) (tail : List Nat) (m : Nat)
    (line : Nat) (accD accI : List Nat) (hvs : ∀ u ∈ vs, u.length ≤ 2 ^ 20) :
    polishLoop (encodeAll vs ++ tail) (vs.length + m) line accD accI
      = polishLoop tail m (line + vs.length) (accD ++ encodeAll vs)
          (accI ++ indexFrom line accD.length vs) := by
  induction vs generalizing line accD accI with
  | nil => simp [encodeAll_nil, indexFrom]
  | cons v vs ih =>
    rw [encodeAll_cons, List.append_assoc,
      show (v :: vs).length + m = (vs.length + m) + 1 from by simp; omega,
      polishLoop_record v _ _ line accD accI (hvs v (by simp)),
      ih _ _ _ (fun u hu => hvs u (by simp [hu]))]
    rw [show line + 1 + vs.length = line + (v :: vs).length from by simp; omega]
    rw [List.append_assoc, List.append_assoc]
    rw [show indexFrom (line + 1) (accD ++ encodeRecord v).length vs
          = indexFrom (line + 1) (accD.length + (encodeRecord v).length) vs from by
        rw [List.length_append]]
    rfl

theorem polish_mkStore (vs : List (List Nat)) (hvs : ∀ u ∈ vs, u.length ≤ 2 ^ 20) :
    (mkStore vs).Polish = .ok (mkStore vs) := by
  unfold Store.Polish mkStore
  simp only
  have step := polishLoop_encodeAll vs [] 0 0 [] [] hvs
  simp only [List.append_nil, Nat.add_zero, List.nil_append, List.length_nil] at step
  rw [step]
  rfl

theorem polish_mkStore_big (vs : List (List Nat)) (vbig : List Nat)
    (hvs : ∀ u ∈ vs, u.length ≤ 2 ^ 20)
    (hbig : 2 ^ 20 < vbig.length) (hfit : vbig.length < 2 ^ 32) :
    (mkStore (vs ++ [vbig])).Polish = .error (.invalidLength vbig.length vs.length) := by
  unfold Store.Polish mkStore
  simp only
  rw [encodeAll_append, encodeAll_cons, encodeAll_nil, List.append_nil,
    show (vs ++ [vbig]).length = vs.length + 1 from by simp]
  have step := polishLoop_encodeAll vs (encodeRecord vbig) 1 0 [] [] hvs
  simp only [List.nil_append, List.length_nil, Nat.zero_add] at step
  rw [step]
  have hbigstep := polishLoop_big vbig [] 0 vs.length (encodeAll vs) (indexFrom 0 0 vs) hbig hfit
  simp only [List.append_nil, Nat.zero_add] at hbigstep
  rw [hbigstep]

theorem polishLoop_lengths (k : Nat) :
    ∀ (bytes : List Nat) (line : Nat) (accD accI d ix : List Nat),
      polishLoop bytes k line accD accI = .ok (d, ix) →
      ix.length = accI.length + 16 * k := by
  induction k with
  | zero =>
    intro bytes line accD accI d ix h
    simp only [polishLoop, Except.ok.injEq, Prod.mk.injEq] at h
    rw [← h.2]
    omega
  | succ k ih =>
    intro bytes line accD accI d ix h
    cases bytes with
    | nil => simp [polishLoop] at h
    | cons t rest =>
      simp only [polishLoop] at h
      split_ifs at h
      all_goals try simp at h
      have := ih _ _ _ _ _ _ h
      rw [this]
      simp [encodeIndexEntry_length]
      omega

/-! ### Opening: success and failure shapes -/

theorem newStore_ok_inv (d i : List Nat) (s : Store) (h : NewStore d i = .ok s) :
    s.indexFile.length = s.lineCount * 16 := by
  unfold NewStore countLines at h
  cases hscan : countLoop d 0 with
  | error e => rw [hscan] at h; simp at h
  | ok n =>
    rw [hscan] at h
    dsimp only at h
    by_cases hlen : i.length = n * 16
    · rw [if_pos hlen] at h
      simp only [Except.ok.injEq] at h
      rw [← h]
      simpa using hlen
    · rw [if_neg hlen] at h
      simp at h

theorem newStore_mismatch (d i : List Nat) (n : Nat) (hscan : countLoop d 0 = .ok n)
    (hne : i.length ≠ n * 16) :
    NewStore d i = .error (.indexSizeMismatch i.length (n * 16)) := by
  unfold NewStore countLines
  rw [hscan]
  dsimp only
  rw [if_neg hne]

theorem countLoop_overrun (L : Nat) (extra : List Nat) (n : Nat)
    (hL : L < 2 ^ 32) (hover : extra.length < L) :
    countLoop (0 :: (leBytes 4 L ++ extra)) n = .ok (n + 1) := by
  rw [countLoop_cons, List.take_left' (leBytes_length 4 L), List.drop_left' (leBytes_length 4 L),
    leVal_leBytes4 hL, List.drop_eq_nil_of_le (Nat.le_of_lt hover), countLoop_nil]
  simp [leBytes_length]

/-! ### Claim C1: round-trip -/

/-- Claim C1 (amended): for every store satisfying the index-size invariant
(and with a data file below the `uint64` offset range) and every payload of at
most `2 ^ 20` bytes, `Set` returns an ordinal at which `Get` returns exactly
that payload. The original claim over all payloads fails: `Get` rejects any
stored length above `1 <<< 20` (see the counterexample). -/
theorem C1_roundTrip (s : Store) (v : List Nat)
    (h16 : s.indexFile.length = s.lineCount * 16)
    (h64 : s.dataFile.length < 2 ^ 64)
    (hv : v.length ≤ 2 ^ 20) :
    ((s.Set v).2).Get (s.Set v).1 = .ok v :=
  get_after_set s v h16 h64 hv

/-- Witness for C1: the round-trip at payload `[7, 8]` on a fresh store. -/
theorem C1_roundTrip_witness :
    store0.indexFile.length = store0.lineCount * 16
    ∧ store0.dataFile.length < 2 ^ 64
    ∧ ([7, 8] : List Nat).length ≤ 2 ^ 20
    ∧ ((store0.Set [7, 8]).2).Get (store0.Set [7, 8]).1 = .ok [7, 8] :=
  ⟨rfl, by norm_num [store0], by norm_num,
    C1_roundTrip store0 [7, 8] rfl (by norm_num [store0]) (by norm_num)⟩

/-- Counterexample to C1 as stated: appending the `2 ^ 20 + 1`-byte payload
`bigPayload` to a fresh store succeeds, but `Get` on the returned ordinal
fails with an invalid-length error instead of returning the payload. -/
theorem C1_counterexample :
    ((store0.Set bigPayload).2).Get (store0.Set bigPayload).1
      = .error (.invalidLength (2 ^ 20 + 1) 0) := by
  have h := get_after_set_big store0 bigPayload rfl (by norm_num [store0])
    (by rw [bigPayload_length]; omega) (by rw [bigPayload_length]; norm_num)
  rw [bigPayload_length] at h
  exact h

/-! ### Claim C2: persistence across close/reopen -/

/-- Claim C2 (amended): appending a payload of at most `2 ^ 20` bytes to a
store whose files hold exactly the previously appended records, closing (a
no-op on file contents), and reopening the same files succeeds, reconstructs
the same `lineCount`, and `Get` on the returned ordinal yields the payload
unchanged. The original claim over all payloads fails for payloads above the
read-side ceiling (see the counterexample). -/
theorem C2_persistence (vs : List (List Nat)) (v : List Nat)
    (hvs : ∀ u ∈ vs, u.length ≤ 2 ^ 20) (hv : v.length ≤ 2 ^ 20)
    (hsize : (encodeAll (vs ++ [v])).length < 2 ^ 64) :
    (mkStore vs).Set v = (vs.length, mkStore (vs ++ [v]))
    ∧ NewStore (mkStore (vs ++ [v])).dataFile (mkStore (vs ++ [v])).indexFile
        = .ok (mkStore (vs ++ [v]))
    ∧ (mkStore (vs ++ [v])).lineCount = ((mkStore vs).Set v).2.lineCount
    ∧ (mkStore (vs ++ [v])).Get vs.length = .ok v := by
  have h32 : ∀ u ∈ vs ++ [v], u.length < 2 ^ 32 := by
    intro u hu
    rcases List.mem_append.mp hu with h | h
    · exact lt_of_le_of_lt (hvs u h) (by norm_num)
    · simp at h
      subst h
      exact lt_of_le_of_lt hv (by norm_num)
  have hk : vs.length < (vs ++ [v]).length := by simp
  have hat : (vs ++ [v])[vs.length] = v := List.getElem_concat_length vs v vs.length rfl hk
  refine ⟨set_mkStore vs v, newStore_mkStore _ h32, by simp [mkStore, Store.Set], ?_⟩
  have hlen : (vs ++ [v])[vs.length].length ≤ 2 ^ 20 := by rw [hat]; exact hv
  have := get_mkStore (vs ++ [v]) vs.length hk hlen hsize
  rwa [hat] at this

/-- Witness for C2: persistence of `[7]` appended to a fresh store. -/
theorem C2_witness :
    ([7] : List Nat).length ≤ 2 ^ 20
    ∧ (mkStore []).Set [7] = (0, mkStore [[7]])
    ∧ NewStore (mkStore [[7]]).dataFile (mkStore [[7]]).indexFile = .ok (mkStore [[7]])
    ∧ (mkStore [[7]]).Get 0 = .ok [7] := by
  have h := C2_persistence [] [7] (by simp) (by norm_num)
    (by norm_num [encodeAll_cons, encodeAll_nil, encodeRecord_length])
  refine ⟨by norm_num, ?_, ?_, ?_⟩
  · simpa using h.1
  · simpa using h.2.1
  · simpa using h.2.2.2

/-- Counterexample to C2 as stated: after appending `bigPayload`, reopening
the files succeeds, but `Get` on the returned ordinal fails with an
invalid-length error instead of returning the payload. -/
theorem C2_counterexample :
    (store0.Set bigPayload).2 = mkStore [bigPayload]
    ∧ NewStore (mkStore [bigPayload]).dataFile (mkStore [bigPayload]).indexFile
        = .ok (mkStore [bigPayload])
    ∧ (mkStore [bigPayload]).Get 0 = .error (.invalidLength (2 ^ 20 + 1) 0) := by
  have h32 : ∀ u ∈ [bigPayload], u.length < 2 ^ 32 := by
    intro u hu
    simp at hu
    subst hu
    rw [bigPayload_length]
    norm_num
  refine ⟨?_, newStore_mkStore _ h32, ?_⟩
  · rw [store0_eq]
    have := set_mkStore [] bigPayload
    simpa using congrArg Prod.snd this
  · have hk : 0 < ([bigPayload] : List (List Nat)).length := by simp
    have hbig : 2 ^ 20 < ([bigPayload][0] : List Nat).length := by
      show 2 ^ 20 < bigPayload.length
      rw [bigPayload_length]
      omega
    have hfit : ([bigPayload][0] : List Nat).length < 2 ^ 32 := by
      show bigPayload.length < 2 ^ 32
      rw [bigPayload_length]
      norm_num
    have hsize : (encodeAll [bigPayload]).length < 2 ^ 64 := by
      simp [encodeAll_cons, encodeAll_nil, encodeRecord_length, bigPayload_length]
    have := get_mkStore_big [bigPayload] 0 hk hbig hfit hsize
    simp only [List.getElem_cons_zero] at this
    rw [bigPayload_length] at this
    exact this

/-! ### Claim C3: open-time corruption detection -/

/-- Claim C3 (amended): opening a data file whose scan reaches a record with
a nonzero tag fails with an error identifying the offending ordinal. The
original claim's second half fails: a declared payload length that would read
past end-of-file is NOT detected — the open-time scan seeks past the payload,
the next read hits end-of-file, the truncated record is counted, and open
succeeds whenever the index file size matches the resulting count (second
conjunct; see also the counterexample). -/
theorem C3_openValidation :
    (∀ (vs : List (List Nat)) (t : Nat) (rest index : List Nat),
      (∀ u ∈ vs, u.length < 2 ^ 32) → t ≠ 0 →
      NewStore (encodeAll vs ++ t :: rest) index = .error (.invalidType t vs.length))
    ∧ (∀ (vs : List (List Nat)) (L : Nat) (extra index : List Nat),
      (∀ u ∈ vs, u.length < 2 ^ 32) → L < 2 ^ 32 → extra.length < L →
      index.length = (vs.length + 1) * 16 →
      NewStore (encodeAll vs ++ 0 :: (leBytes 4 L ++ extra)) index
        = .ok ⟨encodeAll vs ++ 0 :: (leBytes 4 L ++ extra), index, vs.length + 1⟩) := by
  constructor
  · intro vs t rest index h32 ht
    have hscan : countLoop (encodeAll vs ++ t :: rest) 0 = .error (.invalidType t vs.length) := by
      rw [countLoop_encodeAll vs _ 0 h32, countLoop_cons, if_pos ht]
      simp
    unfold NewStore countLines
    rw [hscan]
  · intro vs L extra index h32 hL hover hidx
    have hscan : countLoop (encodeAll vs ++ 0 :: (leBytes 4 L ++ extra)) 0
        = .ok (vs.length + 1) := by
      rw [countLoop_encodeAll vs _ 0 h32, countLoop_overrun L extra _ hL hover]
      simp [Nat.add_comm]
    unfold NewStore countLines
    rw [hscan]
    dsimp only
    rw [if_pos hidx]

/-- Witness for C3: a nonzero tag 7 at ordinal 0 makes open fail, and a
record declaring 5 payload bytes with only 2 present still opens when the
index holds one entry. -/
theorem C3_witness :
    NewStore (encodeAll [] ++ 7 :: [1, 2, 3]) [] = .error (.invalidType 7 0)
    ∧ NewStore (encodeAll [] ++ 0 :: (leBytes 4 5 ++ [1, 2])) (encodeIndexEntry 0 0)
        = .ok ⟨encodeAll [] ++ 0 :: (leBytes 4 5 ++ [1, 2]), encodeIndexEntry 0 0, 1⟩ := by
  constructor
  · have := C3_openValidation.1 [] 7 [1, 2, 3] [] (by simp) (by norm_num)
    simpa using this
  · have := C3_openValidation.2 [] 5 [1, 2] (encodeIndexEntry 0 0) (by simp) (by norm_num)
      (by norm_num) (by simp [encodeIndexEntry_length])
    simpa using this

/-- Counterexample to C3 as stated: the concrete data file
`[0, 5, 0, 0, 0, 1, 2]` declares a 5-byte payload but only 2 bytes follow,
yet opening it with a 16-byte index succeeds (with one record counted)
instead of failing. -/
theorem C3_counterexample :
    NewStore [0, 5, 0, 0, 0, 1, 2] [0, 0, 0, 0, 0, 0, 0, 0, 0, 0, 0, 0, 0, 0, 0, 0]
      = .ok ⟨[0, 5, 0, 0, 0, 1, 2], [0, 0, 0, 0, 0, 0, 0, 0, 0, 0, 0, 0, 0, 0, 0, 0], 1⟩ := by
  simp [NewStore, countLines, countLoop, leVal]

/-! ### Claim C4: index-size invariant -/

/-- Claim C4: the invariant `index file size = lineCount * 16` is verified at
open (a successful `NewStore` guarantees it, and a scan count whose expected
size differs from the index size makes `NewStore` fail with a size-mismatch
error — it never truncates, pads, or rebuilds), and it is preserved by `Set`,
by a successful `Polish`, and by `Backup`, whose copies are byte-identical to
the live files. (The read operations do not modify the store in the model, so
they preserve it trivially.) -/
theorem C4_indexSizeInvariant :
    (∀ (d i : List Nat) (s : Store), NewStore d i = .ok s →
      s.indexFile.length = s.lineCount * 16)
    ∧ (∀ (d i : List Nat) (n : Nat), countLoop d 0 = .ok n → i.length ≠ n * 16 →
      NewStore d i = .error (.indexSizeMismatch i.length (n * 16)))
    ∧ (∀ (s : Store) (v : List Nat), s.indexFile.length = s.lineCount * 16 →
      ((s.Set v).2).indexFile.length = ((s.Set v).2).lineCount * 16)
    ∧ (∀ (s s' : Store), s.Polish = .ok s' → s'.indexFile.length = s'.lineCount * 16)
    ∧ (∀ (s : Store) (polished : Bool), s.Backup polished = (s.dataFile, s.indexFile)) := by
  refine ⟨newStore_ok_inv, newStore_mismatch, ?_, ?_, fun s polished => rfl⟩
  · intro s v h
    simp [Store.Set, encodeIndexEntry_length, h]
    omega
  · intro s s' h
    unfold Store.Polish at h
    cases hloop : polishLoop s.dataFile s.lineCount 0 [] [] with
    | error e => rw [hloop] at h; simp at h
    | ok p =>
      rw [hloop] at h
      obtain ⟨d, ix⟩ := p
      simp only [Except.ok.injEq] at h
      have hlen := polishLoop_lengths s.lineCount s.dataFile 0 [] [] d ix hloop
      rw [← h]
      simp at hlen
      simpa [Nat.mul_comm] using hlen

/-- Witness for C4: the invariant facts at concrete stores — a fresh store,
one `Set`, and a mismatched 1-byte index that makes open fail. -/
theorem C4_witness :
    store0.indexFile.length = store0.lineCount * 16
    ∧ ((store0.Set [5]).2).indexFile.length = ((store0.Set [5]).2).lineCount * 16
    ∧ NewStore [] [1] = .error (.indexSizeMismatch 1 (0 * 16)) := by
  refine ⟨?_, ?_, ?_⟩
  · exact C4_indexSizeInvariant.1 [] [] store0 (by simp [NewStore, countLines, countLoop, store0])
  · exact C4_indexSizeInvariant.2.2.1 store0 [5] rfl
  · exact C4_indexSizeInvariant.2.1 [] [1] 0 (by simp [countLoop]) (by simp)

/-! ### Claim C5: enumeration completeness and order -/

/-- Claim C5 (amended): after appending the payloads `vs` (each at most
`2 ^ 20` bytes) to a fresh store, `List` yields exactly the pairs
`(0, vs[0]), (1, vs[1]), …` in ascending ordinal order and `ListAllReverse`
yields the same pairs in descending order, each keeping its forward ordinal;
on the empty store `ListAllReverse` yields the empty list. The original claim
without the payload-size bound fails (see the counterexample). -/
theorem C5_enumeration (vs : List (List Nat))
    (hvs : ∀ u ∈ vs, u.length ≤ 2 ^ 20) (hsize : (encodeAll vs).length < 2 ^ 64) :
    (appendAll store0 vs).ListForward = .ok vs.enum
    ∧ (appendAll store0 vs).ListAllReverse = .ok vs.enum.reverse
    ∧ store0.ListAllReverse = .ok [] := by
  rw [appendAll_store0]
  exact ⟨listForward_mkStore vs hvs, listAllReverse_mkStore vs hvs hsize, rfl⟩

/-- Witness for C5: enumerating the two payloads `[7]` and `[8, 9]`. -/
theorem C5_witness :
    (appendAll store0 [[7], [8, 9]]).ListForward = .ok [(0, [7]), (1, [8, 9])]
    ∧ (appendAll store0 [[7], [8, 9]]).ListAllReverse = .ok [(1, [8, 9]), (0, [7])] := by
  have h := C5_enumeration [[7], [8, 9]] (by simp) (by norm_num [encodeAll_cons, encodeAll_nil,
    encodeRecord_length])
  exact ⟨h.1, h.2.1⟩

/-- Counterexample to C5 as stated: after one successful append of
`bigPayload`, `List` fails with an invalid-length error instead of returning
the pair. -/
theorem C5_counterexample :
    (appendAll store0 [bigPayload]).ListForward = .error (.invalidLength (2 ^ 20 + 1) 0) := by
  rw [appendAll_store0]
  have := listForward_mkStore_big [] bigPayload (by simp)
    (by rw [bigPayload_length]; omega) (by rw [bigPayload_length]; norm_num)
  rw [bigPayload_length] at this
  simpa using this

/-! ### Claim C6: compaction idempotence -/

/-- Claim C6: on a store holding the payloads `vs`, all of which pass the
read-side checks (length at most `2 ^ 20`), `Polish` succeeds and returns the
very same store — so the record count is unchanged and every `Get` returns
the same payload after `Polish` as before (conjunct two gives the common
value) — and the index entry for ordinal `k` holds `k` and the byte offset of
the `k`-th record. -/
theorem C6_polishIdempotent (vs : List (List Nat))
    (hvs : ∀ u ∈ vs, u.length ≤ 2 ^ 20) (hsize : (encodeAll vs).length < 2 ^ 64) :
    (mkStore vs).Polish = .ok (mkStore vs)
    ∧ (∀ k, ∀ hk : k < vs.length, (mkStore vs).Get k = .ok vs[k])
    ∧ (∀ k, k < vs.length →
        ((mkStore vs).indexFile.drop (k * 16)).take 16
          = encodeIndexEntry k (encodeAll (vs.take k)).length) := by
  refine ⟨polish_mkStore vs hvs, ?_, ?_⟩
  · intro k hk
    exact get_mkStore vs k hk (hvs _ (vs.getElem_mem hk)) hsize
  · intro k hk
    have := indexFrom_lookup vs 0 0 k hk
    simpa [Nat.mul_comm, mkStore] using this

/-- Witness for C6: polishing the two-payload store `[[7], [8, 9]]`. -/
theorem C6_witness :
    (mkStore [[7], [8, 9]]).Polish = .ok (mkStore [[7], [8, 9]])
    ∧ (mkStore [[7], [8, 9]]).Get 1 = .ok [8, 9]
    ∧ ((mkStore [[7], [8, 9]]).indexFile.drop 16).take 16
        = encodeIndexEntry 1 (encodeAll [[7]]).length := by
  have h := C6_polishIdempotent [[7], [8, 9]] (by simp)
    (by norm_num [encodeAll_cons, encodeAll_nil, encodeRecord_length])
  refine ⟨h.1, h.2.1 1 (by norm_num), ?_⟩
  have := h.2.2 1 (by norm_num)
  simpa [encodeAll_cons, encodeAll_nil] using this

/-! ### Claim C7: backup fidelity -/

/-- Claim C7: `Backup` writes byte-for-byte copies of the current data and
index files regardless of the `polished` flag (both flag values produce
identical output), and for a store whose files open back to itself, opening
the backup succeeds and yields a store whose `Get` agrees with the source at
every ordinal. -/
theorem C7_backupFidelity (s : Store)
    (hvalid : NewStore s.dataFile s.indexFile = .ok s) :
    (∀ p₁ p₂ : Bool, s.Backup p₁ = s.Backup p₂)
    ∧ s.Backup false = (s.dataFile, s.indexFile)
    ∧ NewStore (s.Backup false).1 (s.Backup false).2 = .ok s
    ∧ (∀ s' : Store, NewStore (s.Backup false).1 (s.Backup false).2 = .ok s' →
        ∀ n, s'.Get n = s.Get n) := by
  refine ⟨fun p₁ p₂ => rfl, rfl, hvalid, ?_⟩
  intro s' h n
  have hss : s = s' := by
    rw [show (s.Backup false).1 = s.dataFile from rfl,
      show (s.Backup false).2 = s.indexFile from rfl, hvalid] at h
    exact Except.ok.inj h
  rw [hss]

/-- Witness for C7: backing up the one-record store holding `[7]`. -/
theorem C7_witness :
    (mkStore [[7]]).Backup true = (mkStore [[7]]).Backup false
    ∧ (mkStore [[7]]).Backup false = ((mkStore [[7]]).dataFile, (mkStore [[7]]).indexFile)
    ∧ NewStore ((mkStore [[7]]).Backup false).1 ((mkStore [[7]]).Backup false).2
        = .ok (mkStore [[7]]) := by
  have hvalid : NewStore (mkStore [[7]]).dataFile (mkStore [[7]]).indexFile
      = .ok (mkStore [[7]]) :=
    newStore_mkStore [[7]] (by intro u hu; simp at hu; subst hu; norm_num)
  have h := C7_backupFidelity (mkStore [[7]]) hvalid
  exact ⟨h.1 true false, h.2.1, h.2.2.1⟩

/-! ### Claim C8: range enforcement -/

/-- Claim C8: `Get n` fails with an out-of-range error for every
`n ≥ lineCount` (the store itself is untouched — all reads are pure in the
model); `GetLastLine` fails on an empty store and returns `lineCount - 1` on
a non-empty one. -/
theorem C8_rangeEnforcement :
    (∀ (s : Store) (n : Nat), s.lineCount ≤ n →
      s.Get n = .error (.outOfRange n s.lineCount))
    ∧ (∀ s : Store, s.lineCount = 0 → s.GetLastLine = .error .emptyStore)
    ∧ (∀ s : Store, s.lineCount ≠ 0 → s.GetLastLine = .ok (s.lineCount - 1)) := by
  refine ⟨?_, ?_, ?_⟩
  · intro s n h
    rw [Store.Get, if_pos (by omega)]
  · intro s h
    rw [Store.GetLastLine, if_pos h]
  · intro s h
    rw [Store.GetLastLine, if_neg h]

/-- Witness for C8: `Get 999` on a fresh store fails out-of-range,
`GetLastLine` fails on the fresh store and returns 0 after one append. -/
theorem C8_witness :
    store0.Get 999 = .error (.outOfRange 999 0)
    ∧ store0.GetLastLine = .error .emptyStore
    ∧ ((store0.Set [7]).2).GetLastLine = .ok 0 := by
  refine ⟨?_, C8_rangeEnforcement.2.1 store0 rfl, ?_⟩
  · have := C8_rangeEnforcement.1 store0 999 (by norm_num [store0])
    simpa [store0] using this
  · have := C8_rangeEnforcement.2.2 (store0.Set [7]).2 (by simp [Store.Set])
    simpa [Store.Set, store0] using this

/-! ### Claim C9: close error propagation -/

/-- Claim C9: `Close` attempts to close the index file even when closing the
data file fails, and the error surfaced to the caller is the data-file error
whenever the data-file close fails (taking priority over any index error),
the index-file error when only the index close fails, and none when both
succeed. -/
theorem C9_closeErrors :
    (∀ d i : Option String, (closeStore d i).1 = true)
    ∧ (∀ (e : String) (i : Option String),
        (closeStore (some e) i).2 = some ("failed to close data file: " ++ e))
    ∧ (∀ e : String,
        (closeStore none (some e)).2 = some ("failed to close index file: " ++ e))
    ∧ (closeStore none none).2 = none := by
  refine ⟨?_, fun e i => rfl, fun e => rfl, rfl⟩
  intro d i
  cases d <;> cases i <;> rfl

/-! ### Claim C10: no write-side size limit -/

/-- Claim C10: `Set` enforces no payload size limit — appending a payload
longer than `2 ^ 20` bytes (but short enough for its length to fit the
32-bit length field) succeeds and returns the next ordinal, and the
resulting files still open successfully (the open-time scan does not apply
the 1 MiB ceiling), yet `Get` of that ordinal, `List`, and `Polish` all fail
with an invalid-length error: the record is durably stored but unreadable
through the read path. -/
theorem C10_oversizedPayload (vs : List (List Nat)) (vbig : List Nat)
    (hvs : ∀ u ∈ vs, u.length ≤ 2 ^ 20)
    (hbig : 2 ^ 20 < vbig.length) (hfit : vbig.length < 2 ^ 32)
    (hsize : (encodeAll (vs ++ [vbig])).length < 2 ^ 64) :
    (mkStore vs).Set vbig = (vs.length, mkStore (vs ++ [vbig]))
    ∧ NewStore (mkStore (vs ++ [vbig])).dataFile (mkStore (vs ++ [vbig])).indexFile
        = .ok (mkStore (vs ++ [vbig]))
    ∧ (mkStore (vs ++ [vbig])).Get vs.length
        = .error (.invalidLength vbig.length vs.length)
    ∧ (mkStore (vs ++ [vbig])).ListForward
        = .error (.invalidLength vbig.length vs.length)
    ∧ (mkStore (vs ++ [vbig])).Polish
        = .error (.invalidLength vbig.length vs.length) := by
  have h32 : ∀ u ∈ vs ++ [vbig], u.length < 2 ^ 32 := by
    intro u hu
    rcases List.mem_append.mp hu with h | h
    · exact lt_of_le_of_lt (hvs u h) (by norm_num)
    · simp at h
      subst h
      exact hfit
  refine ⟨set_mkStore vs vbig, newStore_mkStore _ h32, ?_,
    listForward_mkStore_big vs vbig hvs hbig hfit,
    polish_mkStore_big vs vbig hvs hbig hfit⟩
  have hk : vs.length < (vs ++ [vbig]).length := by simp
  have hat : (vs ++ [vbig])[vs.length] = vbig :=
    List.getElem_concat_length vs vbig vs.length rfl hk
  have hbig' : 2 ^ 20 < (vs ++ [vbig])[vs.length].length := by rw [hat]; exact hbig
  have hfit' : (vs ++ [vbig])[vs.length].length < 2 ^ 32 := by rw [hat]; exact hfit
  have := get_mkStore_big (vs ++ [vbig]) vs.length hk hbig' hfit' hsize
  rwa [hat] at this

/-- Witness for C10: the oversized payload `bigPayload` on a fresh store. -/
theorem C10_witness :
    2 ^ 20 < bigPayload.length
    ∧ (mkStore []).Set bigPayload = (0, mkStore [bigPayload])
    ∧ NewStore (mkStore [bigPayload]).dataFile (mkStore [bigPayload]).indexFile
        = .ok (mkStore [bigPayload])
    ∧ (mkStore [bigPayload]).Get 0 = .error (.invalidLength bigPayload.length 0)
    ∧ (mkStore [bigPayload]).ListForward = .error (.invalidLength bigPayload.length 0)
    ∧ (mkStore [bigPayload]).Polish = .error (.invalidLength bigPayload.length 0) := by
  have h := C10_oversizedPayload [] bigPayload (by simp)
    (by rw [bigPayload_length]; omega) (by rw [bigPayload_length]; norm_num)
    (by simp [encodeAll_cons, encodeAll_nil, encodeRecord_length, bigPayload_length])
  refine ⟨by rw [bigPayload_length]; omega, ?_, ?_, ?_, ?_, ?_⟩
  · simpa using h.1
  · simpa using h.2.1
  · simpa using h.2.2.1
  · simpa using h.2.2.2.1
  · simpa using h.2.2.2.2

example : countLoop [] 0 = .ok 0 := by simp [countLoop]
example : NewStore [] [] = .ok store0 := by simp [NewStore, countLines, countLoop, store0]
example : (store0.Set [7, 8]).1 = 0 := rfl
example : (store0.Set [7, 8]).2.Get 0 = .ok [7, 8] := rfl
example : (store0.Set [7, 8]).2.Get 1 = .error (.outOfRange 1 1) := rfl
example : store0.Set [7, 8] = (0, mkStore [[7, 8]]) := rfl
example : (mkStore [[7], [8, 9]]).ListForward = .ok [(0, [7]), (1, [8, 9])] := rfl
example : (mkStore [[7], [8, 9]]).ListAllReverse = .ok [(1, [8, 9]), (0, [7])] := rfl
example : (mkStore [[7], [8, 9]]).Polish = .ok (mkStore [[7], [8, 9]]) := rfl

end LineStore
